import Mathlib

/-!
Verification development for the pytpc reconstruction core
(`src/pytpc/fitting/mcopt_wrapper.pyx` and the mcopt numerical engine it
wraps).  Scalars are modelled as rationals; machine floating point is not
modelled, so identities stated "to machine precision" are proved exactly.
Definitions marked `Modelled from the spec:` embed operations of the mcopt
C++ engine, whose sources are not part of this repository checkout; only
their Cython declarations and callers appear in `mcopt_wrapper.pyx`.
-/

namespace PyTPC

/-- Error kinds of the reconstruction core (spec section 7).  `valueError`
stands for the Python `ValueError` / `InvalidArgument` kind. -/
inductive Err where
  | valueError
  | numericalError
  | emptyTrajectory
  | minimizationStalled
  | cancelled
  | lookupMiss
  deriving DecidableEq

/-! ## Tracker state and field setters (`mcopt_wrapper.pyx`, class Tracker) -/

/-- The Python-visible mutable state of a `Tracker` object: particle species
and the electric and magnetic field vectors (`mcopt_wrapper.pyx` lines
95-139).  The field vectors are kept as raw lists so that the dimension
check of the setters can be expressed. -/
structure TrackerState where
  massNum : ℤ
  chargeNum : ℤ
  efield : List ℚ
  bfield : List ℚ

/-- `Tracker.efield` setter (`mcopt_wrapper.pyx` lines 111-121): raises
`ValueError` when the value does not have dimension 3, otherwise stores it. -/
def TrackerState.setEfield (t : TrackerState) (v : List ℚ) : Except Err TrackerState :=
  if v.length ≠ 3 then .error .valueError
  else .ok { t with efield := v }

/-- `Tracker.bfield` setter (`mcopt_wrapper.pyx` lines 129-139). -/
def TrackerState.setBfield (t : TrackerState) (v : List ℚ) : Except Err TrackerState :=
  if v.length ≠ 3 then .error .valueError
  else .ok { t with bfield := v }

/-- Python attribute-assignment semantics: when the setter raises, the
object is left unchanged. -/
def TrackerState.assignEfield (t : TrackerState) (v : List ℚ) : TrackerState :=
  match t.setEfield v with
  | .ok t' => t'
  | .error _ => t

/-- Python attribute-assignment semantics for `Tracker.bfield`. -/
def TrackerState.assignBfield (t : TrackerState) (v : List ℚ) : TrackerState :=
  match t.setBfield v with
  | .ok t' => t'
  | .error _ => t

/-! ## Gas model (`mcopt_wrapper.pyx` class Gas, Tracker.__cinit__) -/

/-- Energy grid of the stopping-power table built in `Tracker.__cinit__`
(`mcopt_wrapper.pyx` lines 75-76): `ens = np.arange(0, max_en*1000)` keV,
passed to the gas library as `ens / 1000` MeV, so it has `max_en * 1000`
entries spaced by 1 keV. -/
def trackerElossEnergies (maxEn : ℕ) : List ℚ :=
  (List.range (maxEn * 1000)).map (fun i : ℕ => (i : ℚ) / 1000)

/-- Gas data held by the C++ engine: stopping power table (MeV/m, 1-keV
steps) and beam energy vs position table (MeV, 1-mm steps). -/
structure Gas where
  eloss : List ℚ
  enVsZ : List ℚ

/-- Modelled from the spec: `mcopt::Gas` stopping-power interpolation (the
C++ `Gas` implementation is not under src/; only its wrapper appears in
`mcopt_wrapper.pyx`).  Spec section 4.1: "linear interpolation on a
1-keV-spaced table indexed from 0 to `max_en·1000`.  Out-of-range E clamps
to the nearest table endpoint."  The index is `u = E_MeV * 1000` keV; the
cell is `⌊u⌋` and the fractional part interpolates linearly between the two
neighbouring entries. -/
def Gas.stoppingPower (g : Gas) (en : ℚ) : ℚ :=
  let u : ℚ := en * 1000
  let i : ℤ := ⌊u⌋
  if i < 0 then g.eloss.headD 0
  else if (g.eloss.length : ℤ) - 1 ≤ i then g.eloss.getLastD 0
  else
    let j : ℕ := i.toNat
    g.eloss.getD j 0 + (u - i) * (g.eloss.getD (j + 1) 0 - g.eloss.getD j 0)

/-! ## PadPlane (`mcopt_wrapper.pyx` class PadPlane) -/

/-- The pad-plane lookup table and its geometry.  The stored rotation angle
θ is represented by the pair (cosTh, sinTh) of its cosine and sine, since
the claims never constrain the transcendental values themselves. -/
structure PadPlane where
  lut : List (List ℕ)
  xLB : ℚ
  xDelta : ℚ
  yLB : ℚ
  yDelta : ℚ
  cosTh : ℚ
  sinTh : ℚ

/-- Modelled from the spec: the discretisation step of
`PadPlane::getPadNumberFromCoordinates` (C++ implementation not under
src/).  Spec section 4.2: "Apply the rotation θ in-plane, discretize:
`ix = ⌊(x_rot − x₀)/Δx⌋`, `iy = ⌊(y_rot − y₀)/Δy⌋`". -/
def PadPlane.padIndices (pp : PadPlane) (x y : ℚ) : ℤ × ℤ :=
  let xr := pp.cosTh * x - pp.sinTh * y
  let yr := pp.sinTh * x + pp.cosTh * y
  (⌊(xr - pp.xLB) / pp.xDelta⌋, ⌊(yr - pp.yLB) / pp.yDelta⌋)

/-- Whether the discretised indices of (x, y) fall inside the lookup
table. -/
def PadPlane.inRange (pp : PadPlane) (x y : ℚ) : Prop :=
  let ix := (pp.padIndices x y).1
  let iy := (pp.padIndices x y).2
  0 ≤ iy ∧ iy.toNat < pp.lut.length ∧ 0 ≤ ix ∧ ix.toNat < (pp.lut.getD iy.toNat []).length

instance (pp : PadPlane) (x y : ℚ) : Decidable (pp.inRange x y) := by
  unfold PadPlane.inRange
  infer_instance

/-- Modelled from the spec: `PadPlane::getPadNumberFromCoordinates` (C++
implementation not under src/; wrapper at `mcopt_wrapper.pyx` lines
197-217).  Spec section 4.2: "out-of-range ⇒ error/NO_PAD.  Return
`lookup[iy, ix]`." -/
def PadPlane.getPadNumberFromCoordinates (pp : PadPlane) (x y : ℚ) : Except Err ℕ :=
  let ix := (pp.padIndices x y).1
  let iy := (pp.padIndices x y).2
  if pp.inRange x y then .ok ((pp.lut.getD iy.toNat []).getD ix.toNat 0)
  else .error .lookupMiss

/-! ## EventGenerator (`mcopt_wrapper.pyx` class EventGenerator) -/

/-- Number of time buckets per event (spec: "typically N_tb = 512",
hard-coded in the engine). -/
def numTimeBuckets : ℕ := 512

/-- Number of pads in the AT-TPC pad plane (spec: 10240). -/
def numPads : ℕ := 10240

/-- Elementary charge in Coulomb, as an exact rational stand-in for the
double constant used by the engine. -/
def chargeE : ℚ := 1602176634 / 10 ^ 28

/-- The Python-visible state of an `EventGenerator` (`mcopt_wrapper.pyx`
lines 261-347).  `clock` is stored internally in Hz (the wrapper multiplies
the MHz argument by 1e6); `vd` is the drift velocity in cm/µs kept as a raw
list so the dimension check of the setter can be expressed.  The tilt angle
is represented by (cosTilt, sinTilt); `resp` is the discretised shaping
impulse response h(t) = (t/τ)·exp(1 − t/τ) of spec section 4.4 step 6,
whose transcendental values are carried as an abstract table. -/
structure EventGenState where
  pads : PadPlane
  vd : List ℚ
  clock : ℚ
  shape : ℚ
  massNum : ℕ
  ioniz : ℚ
  micromegasGain : ℚ
  electronicsGain : ℚ
  cosTilt : ℚ
  sinTilt : ℚ
  diffSigma : ℚ
  resp : ℕ → ℚ

/-- `EventGenerator.vd` setter (`mcopt_wrapper.pyx` lines 337-347): raises
`ValueError` when the value does not have dimension 3. -/
def EventGenState.setVd (eg : EventGenState) (v : List ℚ) : Except Err EventGenState :=
  if v.length ≠ 3 then .error .valueError
  else .ok { eg with vd := v }

/-- Python attribute-assignment semantics for `EventGenerator.vd`. -/
def EventGenState.assignVd (eg : EventGenState) (v : List ℚ) : EventGenState :=
  match eg.setVd v with
  | .ok eg' => eg'
  | .error _ => eg

/-- Modelled from the spec: projection of one trajectory sample to the pad
plane (spec section 4.4 steps 2-3; the C++ `EventGenerator` implementation
is not under src/).  Tilt correction rotates about the x-axis by −tilt, the
drift velocity (cm/µs, converted by 1e4 to m/s) translates the charge to
its arrival point, and the time bucket is `⌊t_drift · clock⌋` clipped to
`[0, N_tb)`. -/
def EventGenState.projectSample (eg : EventGenState) (p : ℚ × ℚ × ℚ) :
    (ℚ × ℚ) × ℕ :=
  let x := p.1
  let y := p.2.1
  let z := p.2.2
  let y1 := y * eg.cosTilt + z * eg.sinTilt
  let z1 := z * eg.cosTilt - y * eg.sinTilt
  let vdx := eg.vd.getD 0 0 * 10000
  let vdy := eg.vd.getD 1 0 * 10000
  let vdz := eg.vd.getD 2 0 * 10000
  let tDrift := z1 / vdz
  let tbi : ℤ := ⌊tDrift * eg.clock⌋
  let tb : ℕ :=
    if tbi < 0 then 0
    else if (numTimeBuckets : ℤ) ≤ tbi then numTimeBuckets - 1
    else tbi.toNat
  ((x + vdx * tDrift, y1 + vdy * tDrift), tb)

/-- One charge deposit: (pad id, time bucket, number of electrons). -/
abbrev Deposit : Type := ℕ × ℕ × ℚ

/-- Modelled from the spec: the charge deposited by one trajectory segment
(spec section 4.4 steps 1, 5).  The segment from sample i to i+1 liberates
`n_e = ΔE · massNum · 10⁶ / ioniz` electrons at the projected pad and time
bucket of the i-th sample; a sample whose projection misses the pad plane
(`LookupMiss`) is silently discarded. -/
def EventGenState.segDeposit (eg : EventGenState) (p : ℚ × ℚ × ℚ)
    (e1 e2 : ℚ) : List Deposit :=
  let a := eg.projectSample p
  match eg.pads.getPadNumberFromCoordinates a.1.1 a.1.2 with
  | .ok pad => [(pad, a.2, (e1 - e2) * eg.massNum * 1000000 / eg.ioniz)]
  | .error _ => []

/-- Modelled from the spec: all charge deposits of a trajectory, one per
pair of consecutive samples (spec section 4.4 step 1). -/
def EventGenState.trackDeposits (eg : EventGenState) :
    List (ℚ × ℚ × ℚ) → List ℚ → List Deposit
  | p1 :: p2 :: ps, e1 :: e2 :: es =>
      eg.segDeposit p1 e1 e2 ++ eg.trackDeposits (p2 :: ps) (e2 :: es)
  | _, _ => []

/-- Raw (pre-electronics) time series of one pad: total charge deposited on
pad `p` in time bucket `t`. -/
def padRaw : List Deposit → ℕ → ℕ → ℚ
  | [], _, _ => 0
  | d :: ds, p, t => (if d.1 = p ∧ d.2.1 = t then d.2.2 else 0) + padRaw ds p t

/-- Raw time series of the whole plane: total charge deposited in time
bucket `t`, over every pad. -/
def totalRaw : List Deposit → ℕ → ℚ
  | [], _ => 0
  | d :: ds, t => (if d.2.1 = t then d.2.2 else 0) + totalRaw ds t

/-- The pads that received at least one deposit, without duplicates. -/
def touchedPads (ds : List Deposit) : List ℕ :=
  (ds.map (fun d => d.1)).dedup

/-- Causal discrete convolution with the shaping response. -/
def convWith (h f : ℕ → ℚ) (n : ℕ) : ℚ :=
  ((List.range (n + 1)).map (fun k => h (n - k) * f k)).sum

/-- Overall gain factor applied to every signal (spec section 4.4 step 6):
micromegas gain · electronics gain · elementary charge. -/
def EventGenState.gain (eg : EventGenState) : ℚ :=
  eg.micromegasGain * eg.electronicsGain * chargeE

/-- The shaped electronics signal of pad `p` (spec section 4.4 step 6):
the raw series convolved with the shaping response, times the gains. -/
def EventGenState.shapedSignal (eg : EventGenState) (ds : List Deposit)
    (p : ℕ) : ℕ → ℚ :=
  fun t => eg.gain * convWith eg.resp (padRaw ds p) t

/-- Modelled from the spec: the successful-path result of
`EventGenerator::makeEvent` (C++ implementation not under src/; wrapper at
`mcopt_wrapper.pyx` lines 349-388): a map from each pad that received
charge to its shaped signal. -/
def EventGenState.makeEventCore (eg : EventGenState) (pos : List (ℚ × ℚ × ℚ))
    (en : List ℚ) : List (ℕ × (ℕ → ℚ)) :=
  let ds := eg.trackDeposits pos en
  (touchedPads ds).map (fun p => (p, eg.shapedSignal ds p))

/-- Modelled from the spec: the successful-path result of
`EventGenerator::makeMeshSignal` (wrapper at `mcopt_wrapper.pyx` lines
420-448): the plane-wide deposition series convolved once with the shaping
response, times the gains. -/
def EventGenState.meshCore (eg : EventGenState) (pos : List (ℚ × ℚ × ℚ))
    (en : List ℚ) : ℕ → ℚ :=
  fun t => eg.gain * convWith eg.resp (totalRaw (eg.trackDeposits pos en)) t

/-- Modelled from the spec: the successful-path result of
`EventGenerator::makeHitPattern` (wrapper at `mcopt_wrapper.pyx` lines
450-480): for each pad of the plane, the integral over the time buckets of
its shaped signal; pads beyond the plane read 0. -/
def EventGenState.hitPatternCore (eg : EventGenState) (pos : List (ℚ × ℚ × ℚ))
    (en : List ℚ) : ℕ → ℚ :=
  fun p =>
    if p < numPads then
      ((List.range numTimeBuckets).map
        (fun t => eg.shapedSignal (eg.trackDeposits pos en) p t)).sum
    else 0

/-- Modelled from the spec: `EventGenerator::makeEvent` including its edge
case (spec section 4.4: "Trajectories with fewer than 2 samples ⇒ fail with
`EmptyTrajectory`"). -/
def EventGenState.makeEvent (eg : EventGenState) (pos : List (ℚ × ℚ × ℚ))
    (en : List ℚ) : Except Err (List (ℕ × (ℕ → ℚ))) :=
  if pos.length < 2 then .error .emptyTrajectory
  else .ok (eg.makeEventCore pos en)

/-- Modelled from the spec: `EventGenerator::makeMeshSignal` with the
EmptyTrajectory edge case. -/
def EventGenState.makeMeshSignal (eg : EventGenState) (pos : List (ℚ × ℚ × ℚ))
    (en : List ℚ) : Except Err (ℕ → ℚ) :=
  if pos.length < 2 then .error .emptyTrajectory
  else .ok (eg.meshCore pos en)

/-- Modelled from the spec: `EventGenerator::makeHitPattern` with the
EmptyTrajectory edge case. -/
def EventGenState.makeHitPattern (eg : EventGenState) (pos : List (ℚ × ℚ × ℚ))
    (en : List ℚ) : Except Err (ℕ → ℚ) :=
  if pos.length < 2 then .error .emptyTrajectory
  else .ok (eg.hitPatternCore pos en)

/-- Signal lookup in the event map returned by `makeEvent`, with the zero
signal for pads absent from the map (pads that received no charge). -/
def evLookup (ev : List (ℕ × (ℕ → ℚ))) (p : ℕ) : ℕ → ℚ :=
  match ev.find? (fun e => e.1 == p) with
  | some e => e.2
  | none => fun _ => 0

/-! ## Minimizer (`mcopt_wrapper.pyx` class Minimizer) -/

/-- A candidate parameter vector: (x0, y0, z0, enu0, azi0, pol0, bmag0),
7 dimensions (`mcopt_wrapper.pyx` minimize docstring). -/
abbrev ParamVec : Type := Fin 7 → ℚ

/-- One chi-squared triple: (position chi2, hit pattern chi2, vertex
position chi2) — the column order of `minChis` documented in the
`Minimizer.minimize` docstring. -/
structure Chi2Triple where
  pos : ℚ
  en : ℚ
  vert : ℚ
  deriving DecidableEq

/-- Modelled from the spec: the Minimizer's random number generator
("Numerical determinism: ... The RNG is owned by the Minimizer and
seedable", spec section 5).  A 64-bit linear congruential generator stands
in for the engine's generator, whose exact kind the spec leaves open. -/
structure Rng where
  seed : ℕ
  deriving DecidableEq

/-- One step of the generator. -/
def Rng.next (g : Rng) : Rng :=
  ⟨(6364136223846793005 * g.seed + 1442695040888963407) % 18446744073709551616⟩

/-- A uniform draw in [0, 1) together with the advanced generator. -/
def Rng.unif (g : Rng) : ℚ × Rng :=
  let g' := g.next
  (((g'.seed % 4294967296 : ℕ) : ℚ) / 4294967296, g')

/-- A list of `n` uniform draws, threading the generator. -/
def Rng.unifList : ℕ → Rng → List ℚ × Rng
  | 0, g => ([], g)
  | n + 1, g =>
      let p := g.unif
      let r := Rng.unifList n p.2
      (p.1 :: r.1, r.2)

/-- The Python-visible state of a `Minimizer` (`mcopt_wrapper.pyx` lines
493-497 and the properties at lines 697-751), together with its RNG. -/
structure MinimizerState where
  numIters : ℕ
  numPts : ℕ
  redFactor : ℚ
  posChi2Enabled : Bool
  enChi2Enabled : Bool
  posChi2Norm : ℚ
  enChi2NormFraction : ℚ
  rng : Rng

/-- Seeding the Minimizer's RNG (spec section 5: the RNG is "seedable"). -/
def MinimizerState.setSeed (m : MinimizerState) (s : ℕ) : MinimizerState :=
  { m with rng := ⟨s⟩ }

/-- Total chi-squared of a candidate: the sum of the enabled components
(spec section 4.5: "Total = sum of enabled components"). -/
def MinimizerState.totalScore (m : MinimizerState) (t : Chi2Triple) : ℚ :=
  (if m.posChi2Enabled then t.pos else 0) +
    (if m.enChi2Enabled then t.en else 0) + t.vert

/-- Modelled from the spec: drawing one candidate uniformly from the
hypercube centered at `ctr` with half-width `σ/2` per dimension
(spec section 4.5 step 1; `mcopt_wrapper.pyx` minimize docstring: "centered
on ctr0 with a width of sig0 / 2 in each direction"). -/
def drawParam (ctr sg : ParamVec) (g : Rng) : ParamVec × Rng :=
  let r := Rng.unifList 7 g
  (fun d => ctr d + (r.1.getD d 0 - 1 / 2) * sg d, r.2)

/-- `n` candidates drawn in order, threading the generator. -/
def drawParams : ℕ → ParamVec → ParamVec → Rng → List ParamVec × Rng
  | 0, _, _, g => ([], g)
  | n + 1, c, s, g =>
      let p := drawParam c s g
      let r := drawParams n c s p.2
      (p.1 :: r.1, r.2)

/-- Index and value of the least defined score, ties broken by the lowest
index (spec section 5 tie-breaker); `none` when every score is `none`
(every candidate failed, scored +∞). -/
def argminScore (xs : List (Option ℚ)) : Option (ℕ × ℚ) :=
  (xs.enum.foldl (fun acc iv =>
    match iv.2 with
    | none => acc
    | some v =>
        match acc with
        | none => some (iv.1, v)
        | some jw => if v < jw.2 then some (iv.1, v) else some jw) none)

/-- The loop state of the contracting-hypercube search.  The per-iteration
lists are accumulated in reverse order; `minChis` rows are `none` for a
fully-failing iteration (the spec's +∞ row). -/
structure LoopSt where
  ctr : ParamVec
  sg : ParamVec
  rng : Rng
  minChis : List (Option Chi2Triple)
  allParams : List ParamVec
  goodIdx : List ℕ
  iter : ℕ
  consecFails : ℕ
  stalled : Bool

/-- The scores of the candidates that iteration `ls` would draw: `none`
marks a candidate whose tracking failed. -/
def iterScores (m : MinimizerState) (obj : ParamVec → Option Chi2Triple)
    (ls : LoopSt) : List (Option ℚ) :=
  ((drawParams m.numPts ls.ctr ls.sg ls.rng).1).map
    (fun p => (obj p).map m.totalScore)

/-- Whether every candidate of the iteration starting at `ls` fails. -/
def iterAllFail (m : MinimizerState) (obj : ParamVec → Option Chi2Triple)
    (ls : LoopSt) : Bool :=
  (argminScore (iterScores m obj ls)).isNone

/-- Modelled from the spec: one iteration of `MCminimizer::minimize`
(spec section 4.5; the C++ implementation is not under src/, wrapper at
`mcopt_wrapper.pyx` lines 502-583).  Draw `numPts` candidates, score them
through the objective `obj` (the tracker + event generator + chi²
evaluation against the fixed observations), record the minimum triple and
the winning index, move the center to the winner and contract the widths by
`redFactor`.  When every candidate fails the iteration records +∞ and
retains the prior center and widths; three consecutive such iterations
latch the `MinimizationStalled` failure. -/
def mcStep (m : MinimizerState) (obj : ParamVec → Option Chi2Triple)
    (ls : LoopSt) : LoopSt :=
  let dr := drawParams m.numPts ls.ctr ls.sg ls.rng
  let scores := dr.1.map (fun p => (obj p).map m.totalScore)
  match argminScore scores with
  | some iw =>
      let winner := dr.1.getD iw.1 ls.ctr
      { ctr := winner
        sg := fun d => ls.sg d * m.redFactor
        rng := dr.2
        minChis := obj winner :: ls.minChis
        allParams := dr.1.reverse ++ ls.allParams
        goodIdx := (ls.iter * m.numPts + iw.1) :: ls.goodIdx
        iter := ls.iter + 1
        consecFails := 0
        stalled := ls.stalled }
  | none =>
      { ls with
        rng := dr.2
        minChis := none :: ls.minChis
        allParams := dr.1.reverse ++ ls.allParams
        iter := ls.iter + 1
        consecFails := ls.consecFails + 1
        stalled := ls.stalled || decide (3 ≤ ls.consecFails + 1) }

/-- The initial loop state. -/
def initLoopSt (m : MinimizerState) (ctr0 sg0 : ParamVec) : LoopSt :=
  ⟨ctr0, sg0, m.rng, [], [], [], 0, 0, false⟩

/-- The loop state after `k` iterations. -/
def mcIter (m : MinimizerState) (obj : ParamVec → Option Chi2Triple)
    (ctr0 sg0 : ParamVec) (k : ℕ) : LoopSt :=
  (mcStep m obj)^[k] (initLoopSt m ctr0 sg0)

/-- The result record of `MCminimizer::minimize` (the C++
`MCminimizeResult`): best center, per-iteration minimum chi² triples, all
sampled parameter vectors, winning row indices. -/
structure MCResult where
  ctr : ParamVec
  minChis : List (Option Chi2Triple)
  allParams : List ParamVec
  goodParamIdx : List ℕ

/-- Modelled from the spec: `MCminimizer::minimize` (spec section 4.5).
Runs `numIters` iterations and returns the result record, or the
`MinimizationStalled` failure after three consecutive fully-failing
iterations. -/
def MinimizerState.minimize (m : MinimizerState)
    (obj : ParamVec → Option Chi2Triple) (ctr0 sg0 : ParamVec) :
    Except Err MCResult :=
  let fin := mcIter m obj ctr0 sg0 m.numIters
  if fin.stalled then .error .minimizationStalled
  else .ok ⟨fin.ctr, fin.minChis.reverse, fin.allParams.reverse, fin.goodIdx.reverse⟩

/-- The value returned by the Python method `Minimizer.minimize`
(`mcopt_wrapper.pyx` lines 574-583): the full 4-part result when
`details=True`, otherwise only the center and the last row's position and
hit-pattern chi² values (`none` standing for the +∞ of a fully-failing
last iteration). -/
inductive MinimizeReturn where
  | full (ctr : ParamVec) (minChis : List (Option Chi2Triple))
      (allParams : List ParamVec) (goodParamIdx : List ℕ)
  | brief (ctr : ParamVec) (lastPosChi lastEnChi : Option ℚ)

/-- `Minimizer.minimize` as wrapped in Cython (`mcopt_wrapper.pyx` lines
502-583): run the engine minimization, then either return the four detail
parts (`details=True`) or project out `(ctr, minChis[last, 0],
minChis[last, 1])` (`details=False`, the default). -/
def MinimizerState.minimizeW (m : MinimizerState)
    (obj : ParamVec → Option Chi2Triple) (ctr0 sg0 : ParamVec)
    (details : Bool) : Except Err MinimizeReturn :=
  (m.minimize obj ctr0 sg0).map (fun res =>
    if details then .full res.ctr res.minChis res.allParams res.goodParamIdx
    else
      .brief res.ctr ((res.minChis.getLastD none).map Chi2Triple.pos)
        ((res.minChis.getLastD none).map Chi2Triple.en))

/-- Whether a `Minimizer.minimize` return value has the four detail
parts. -/
def MinimizeReturn.fourParts : MinimizeReturn → Bool
  | .full _ _ _ _ => true
  | .brief _ _ _ => false

/-- Number of rows of the `minChis` part (0 for a brief return). -/
def MinimizeReturn.chiRows : MinimizeReturn → ℕ
  | .full _ mc _ _ => mc.length
  | .brief _ _ _ => 0

/-- Number of rows of the `allParams` part (0 for a brief return). -/
def MinimizeReturn.paramRows : MinimizeReturn → ℕ
  | .full _ _ ap _ => ap.length
  | .brief _ _ _ => 0

/-- Whether a wrapped result is a successful return with four parts. -/
def okFourParts : Except Err MinimizeReturn → Bool
  | .ok r => r.fourParts
  | .error _ => false

/-- Number of rows of the `minChis` part of a successful return (0
otherwise). -/
def okChiRows : Except Err MinimizeReturn → ℕ
  | .ok r => r.chiRows
  | .error _ => 0

/-- Number of rows of the `allParams` part of a successful return (0
otherwise). -/
def okParamRows : Except Err MinimizeReturn → ℕ
  | .ok r => r.paramRows
  | .error _ => 0

/-- Whether the wrapped minimization completed without error. -/
def mzIsOk : Except Err MinimizeReturn → Bool
  | .ok _ => true
  | .error _ => false

/-! ## Concrete fixtures used by the witness theorems -/

/-- A 2×2 pad plane with unit cells covering [-1, 1)², no rotation. -/
def ppW : PadPlane := ⟨[[0, 1], [2, 3]], -1, 1, -1, 1, 1, 0⟩

/-- A concrete event generator over `ppW`: drift along z at 1 cm/µs, 1 kHz
clock, no tilt, alpha particle, 23 eV ionization potential, unit gains, a
delta shaping response. -/
def egW : EventGenState :=
  ⟨ppW, [0, 0, 1], 1000, 0, 4, 23, 1, 1, 1, 0, 0, fun t => if t = 0 then 1 else 0⟩

/-- A two-sample trajectory landing on pad 3 of `ppW`. -/
def posW : List (ℚ × ℚ × ℚ) := [(0, 0, 1), (0, 0, 1 / 2)]

/-- The energies along `posW` (MeV/u). -/
def enW : List ℚ := [2, 1]

/-- A degenerate one-sample trajectory. -/
def posShort : List (ℚ × ℚ × ℚ) := [(0, 0, 1)]

/-- The energy along `posShort`. -/
def enShort : List ℚ := [2]

/-- A concrete minimizer: 1 iteration of 1 point, `redFactor` 0.8. -/
def mW : MinimizerState := ⟨1, 1, 4 / 5, true, true, 1 / 100, 1 / 10, ⟨7⟩⟩

/-- The same minimizer state as `mW` except for the RNG. -/
def mW2 : MinimizerState := ⟨1, 1, 4 / 5, true, true, 1 / 100, 1 / 10, ⟨99⟩⟩

/-- A concrete objective whose tracking always succeeds. -/
def objW : ParamVec → Option Chi2Triple := fun _ => some ⟨1, 2, 3⟩

/-- A concrete initial center. -/
def ctrW : ParamVec := fun _ => 0

/-- A concrete initial width vector. -/
def sgW : ParamVec := fun _ => 1

/-- A concrete 3-entry stopping-power table. -/
def gasW : Gas := ⟨[10, 20, 40], []⟩

/-- A concrete tracker state (alpha particle in typical AT-TPC fields). -/
def tW : TrackerState := ⟨4, 2, [0, 0, 9195], [0, 0, 17 / 10]⟩

/-! ## Helper lemmas about the projection algebra -/

lemma sum_map_zero {α : Type} (l : List α) :
    (l.map (fun _ => (0 : ℚ))).sum = 0 := by
  induction l with
  | nil => rfl
  | cons a l ih => simp [ih]

lemma convWith_zero (h : ℕ → ℚ) (n : ℕ) :
    convWith h (fun _ => 0) n = 0 := by
  unfold convWith
  have hz : ∀ k ∈ List.range (n + 1),
      h (n - k) * (fun _ : ℕ => (0 : ℚ)) k = (fun _ : ℕ => (0 : ℚ)) k :=
    fun k _ => mul_zero _
  rw [List.map_congr_left hz, sum_map_zero]

lemma convWith_add (h f g : ℕ → ℚ) (n : ℕ) :
    convWith h (fun t => f t + g t) n = convWith h f n + convWith h g n := by
  unfold convWith
  rw [← List.sum_map_add]
  congr 1
  exact List.map_congr_left (fun k _ => mul_add _ _ _)

lemma convWith_list_sum (h : ℕ → ℚ) (fs : List (ℕ → ℚ)) (n : ℕ) :
    convWith h (fun t => (fs.map (fun f => f t)).sum) n
      = (fs.map (fun f => convWith h f n)).sum := by
  induction fs with
  | nil => exact convWith_zero h n
  | cons f fs ih =>
      have : (fun t => ((f :: fs).map (fun f => f t)).sum)
          = fun t => f t + ((fs.map (fun f => f t)).sum) := by
        funext t; simp
      rw [this, convWith_add, ih]
      simp

lemma padRaw_not_touched (ds : List Deposit) (p t : ℕ)
    (hp : p ∉ ds.map (fun d => d.1)) : padRaw ds p t = 0 := by
  induction ds with
  | nil => rfl
  | cons d ds ih =>
      have hd : ¬ d.1 = p := by
        intro h
        exact hp (by simp [h])
      have hds : p ∉ ds.map (fun d => d.1) := by
        intro h
        exact hp (by simp [h])
      show (if d.1 = p ∧ d.2.1 = t then d.2.2 else 0) + padRaw ds p t = 0
      rw [if_neg (fun hc => hd hc.1), ih hds, add_zero]

lemma sum_map_ite_key (ks : List ℕ) (a : ℕ) (c : ℚ) (hnd : ks.Nodup)
    (ha : a ∈ ks) : (ks.map (fun p => if a = p then c else 0)).sum = c := by
  induction ks with
  | nil => cases ha
  | cons k ks ih =>
      rcases List.mem_cons.mp ha with h | h
      · subst h
        have hz : ∀ p ∈ ks, (if a = p then c else 0) = 0 := by
          intro p hp
          rw [if_neg]
          intro he
          exact (List.nodup_cons.mp hnd).1 (he ▸ hp)
        simp only [List.map_cons, List.sum_cons]
        rw [List.map_congr_left hz, sum_map_zero, add_zero]
        simp
      · have hk : ¬ a = k := by
          intro he
          exact (List.nodup_cons.mp hnd).1 (he ▸ h)
        simp only [List.map_cons, List.sum_cons, if_neg hk]
        rw [ih (List.nodup_cons.mp hnd).2 h, zero_add]

lemma sum_padRaw_eq_totalRaw (ds : List Deposit) (ks : List ℕ) (t : ℕ)
    (hnd : ks.Nodup) (hcov : ∀ d ∈ ds, d.1 ∈ ks) :
    (ks.map (fun p => padRaw ds p t)).sum = totalRaw ds t := by
  induction ds with
  | nil =>
      show (ks.map (fun _ => padRaw [] _ t)).sum = totalRaw [] t
      simp [padRaw, totalRaw, sum_map_zero ks]
  | cons d ds ih =>
      have hsplit : (fun p => padRaw (d :: ds) p t)
          = fun p => (if d.1 = p ∧ d.2.1 = t then d.2.2 else 0) + padRaw ds p t := by
        funext p; rfl
      rw [hsplit]
      rw [List.sum_map_add]
      have h1 : (ks.map (fun p => if d.1 = p ∧ d.2.1 = t then d.2.2 else 0)).sum
          = if d.2.1 = t then d.2.2 else 0 := by
        by_cases ht : d.2.1 = t
        · have : (fun p => if d.1 = p ∧ d.2.1 = t then d.2.2 else 0)
              = fun p => if d.1 = p then d.2.2 else 0 := by
            funext p
            by_cases hp : d.1 = p <;> simp [hp, ht]
          rw [this, sum_map_ite_key ks d.1 d.2.2 hnd (hcov d (by simp)), if_pos ht]
        · have : (fun p => if d.1 = p ∧ d.2.1 = t then d.2.2 else 0)
              = fun _ => (0 : ℚ) := by
            funext p
            simp [ht]
          rw [this, sum_map_zero, if_neg ht]
      rw [h1, ih (fun d' hd' => hcov d' (by simp [hd']))]
      rfl

lemma touchedPads_nodup (ds : List Deposit) : (touchedPads ds).Nodup :=
  List.nodup_dedup _

lemma mem_touchedPads {ds : List Deposit} {d : Deposit} (hd : d ∈ ds) :
    d.1 ∈ touchedPads ds :=
  List.mem_dedup.mpr (List.mem_map.mpr ⟨d, hd, rfl⟩)

lemma not_mem_touchedPads {ds : List Deposit} {p : ℕ}
    (hp : p ∉ touchedPads ds) : p ∉ ds.map (fun d => d.1) :=
  fun h => hp (List.mem_dedup.mpr h)

/-- The central algebraic fact behind the mesh claim: the one-pass mesh
signal coincides, point by point, with the sum over pads of the per-pad
shaped signals. -/
lemma meshCore_eq_sum_event (eg : EventGenState) (pos : List (ℚ × ℚ × ℚ))
    (en : List ℚ) (t : ℕ) :
    eg.meshCore pos en t
      = ((eg.makeEventCore pos en).map (fun e => e.2 t)).sum := by
  unfold EventGenState.meshCore EventGenState.makeEventCore
  set ds := eg.trackDeposits pos en with hds
  have hmaps : ((touchedPads ds).map (fun p => (p, eg.shapedSignal ds p))).map
      (fun e => e.2 t) = (touchedPads ds).map (fun p => eg.shapedSignal ds p t) := by
    rw [List.map_map]
    rfl
  rw [hmaps]
  have hshape : (touchedPads ds).map (fun p => eg.shapedSignal ds p t)
      = (touchedPads ds).map (fun p => eg.gain * convWith eg.resp (padRaw ds p) t) := rfl
  rw [hshape, List.sum_map_mul_left]
  congr 1
  have hfib : totalRaw ds = fun u =>
      (((touchedPads ds).map (fun p => padRaw ds p)).map (fun f => f u)).sum := by
    funext u
    rw [List.map_map]
    exact (sum_padRaw_eq_totalRaw ds (touchedPads ds) u (touchedPads_nodup ds)
      (fun d hd => mem_touchedPads hd)).symm
  rw [hfib, convWith_list_sum, List.map_map]
  rfl

lemma find?_keyed_mem (ks : List ℕ) (f : ℕ → ℕ → ℚ) (p : ℕ) (hp : p ∈ ks) :
    (ks.map (fun k => (k, f k))).find? (fun e => e.1 == p) = some (p, f p) := by
  induction ks with
  | nil => cases hp
  | cons k ks ih =>
      by_cases hk : k = p
      · subst hk
        simp [List.find?]
      · have hp' : p ∈ ks := by
          rcases List.mem_cons.mp hp with h | h
          · exact absurd h.symm hk
          · exact h
        have hbeq : (k == p) = false := beq_false_of_ne hk
        simp only [List.map_cons, List.find?, hbeq]
        exact ih hp'

lemma find?_keyed_not_mem (ks : List ℕ) (f : ℕ → ℕ → ℚ) (p : ℕ)
    (hp : p ∉ ks) :
    (ks.map (fun k => (k, f k))).find? (fun e => e.1 == p) = none := by
  induction ks with
  | nil => rfl
  | cons k ks ih =>
      have hk : ¬ k = p := fun h => hp (by simp [h])
      have hbeq : (k == p) = false := beq_false_of_ne hk
      simp only [List.map_cons, List.find?, hbeq]
      exact ih (fun h => hp (List.mem_cons.mpr (Or.inr h)))

/-- The signal looked up in the event map is the shaped signal when the pad
was touched. -/
lemma evLookup_touched (eg : EventGenState) (pos : List (ℚ × ℚ × ℚ))
    (en : List ℚ) (p : ℕ) (hp : p ∈ touchedPads (eg.trackDeposits pos en)) :
    evLookup (eg.makeEventCore pos en) p
      = eg.shapedSignal (eg.trackDeposits pos en) p := by
  unfold evLookup EventGenState.makeEventCore
  rw [find?_keyed_mem _ _ _ hp]

/-- The signal looked up in the event map is the zero signal for a pad that
received no charge. -/
lemma evLookup_not_touched (eg : EventGenState) (pos : List (ℚ × ℚ × ℚ))
    (en : List ℚ) (p : ℕ) (hp : p ∉ touchedPads (eg.trackDeposits pos en)) :
    evLookup (eg.makeEventCore pos en) p = fun _ => 0 := by
  unfold evLookup EventGenState.makeEventCore
  rw [find?_keyed_not_mem _ _ _ hp]

/-- The central fact behind the hit-pattern claim: each in-plane entry of
the hit pattern is the time integral of the event-map signal of that pad
(the zero signal for pads that received no charge). -/
lemma hitPatternCore_eq_sum_event (eg : EventGenState)
    (pos : List (ℚ × ℚ × ℚ)) (en : List ℚ) (p : ℕ) (hp : p < numPads) :
    eg.hitPatternCore pos en p
      = ((List.range numTimeBuckets).map
          (fun t => evLookup (eg.makeEventCore pos en) p t)).sum := by
  unfold EventGenState.hitPatternCore
  rw [if_pos hp]
  by_cases ht : p ∈ touchedPads (eg.trackDeposits pos en)
  · rw [evLookup_touched eg pos en p ht]
  · rw [evLookup_not_touched eg pos en p ht]
    have hfun : padRaw (eg.trackDeposits pos en) p = fun _ => 0 :=
      funext (fun t => padRaw_not_touched _ _ _ (not_mem_touchedPads ht))
    have hz : ∀ t, eg.shapedSignal (eg.trackDeposits pos en) p t = 0 := by
      intro t
      unfold EventGenState.shapedSignal
      rw [hfun, convWith_zero, mul_zero]
    exact congrArg List.sum (List.map_congr_left (fun t _ => hz t))

/-! ## Helper lemmas about the minimizer loop -/

lemma drawParams_length (n : ℕ) (c s : ParamVec) (g : Rng) :
    (drawParams n c s g).1.length = n := by
  induction n generalizing g with
  | zero => rfl
  | succ n ih => simp [drawParams, ih]

lemma mcStep_minChis_length (m : MinimizerState)
    (obj : ParamVec → Option Chi2Triple) (ls : LoopSt) :
    (mcStep m obj ls).minChis.length = ls.minChis.length + 1 := by
  unfold mcStep
  dsimp only
  cases h : argminScore ((drawParams m.numPts ls.ctr ls.sg ls.rng).1.map
      (fun p => (obj p).map m.totalScore)) with
  | none => rfl
  | some iw => rfl

lemma mcStep_allParams_length (m : MinimizerState)
    (obj : ParamVec → Option Chi2Triple) (ls : LoopSt) :
    (mcStep m obj ls).allParams.length = m.numPts + ls.allParams.length := by
  unfold mcStep
  dsimp only
  cases h : argminScore ((drawParams m.numPts ls.ctr ls.sg ls.rng).1.map
      (fun p => (obj p).map m.totalScore)) with
  | none => simp [drawParams_length]
  | some iw => simp [drawParams_length]

lemma mcIter_minChis_length (m : MinimizerState)
    (obj : ParamVec → Option Chi2Triple) (c0 s0 : ParamVec) (k : ℕ) :
    (mcIter m obj c0 s0 k).minChis.length = k := by
  induction k with
  | zero => rfl
  | succ k ih =>
      unfold mcIter at ih ⊢
      rw [Function.iterate_succ_apply', mcStep_minChis_length, ih]

lemma mcIter_allParams_length (m : MinimizerState)
    (obj : ParamVec → Option Chi2Triple) (c0 s0 : ParamVec) (k : ℕ) :
    (mcIter m obj c0 s0 k).allParams.length = k * m.numPts := by
  induction k with
  | zero => simp [mcIter, initLoopSt]
  | succ k ih =>
      unfold mcIter at ih ⊢
      rw [Function.iterate_succ_apply', mcStep_allParams_length, ih]
      ring

lemma mcStep_sg_of_not_fail (m : MinimizerState)
    (obj : ParamVec → Option Chi2Triple) (ls : LoopSt)
    (h : iterAllFail m obj ls = false) :
    (mcStep m obj ls).sg = fun d => ls.sg d * m.redFactor := by
  unfold iterAllFail iterScores at h
  unfold mcStep
  dsimp only
  cases hm : argminScore ((drawParams m.numPts ls.ctr ls.sg ls.rng).1.map
      (fun p => (obj p).map m.totalScore)) with
  | none => rw [hm] at h; simp at h
  | some iw => rfl

/-! ## Claim theorems -/

/-- C7: for every input trajectory with fewer than 2 samples, the
EventGenerator projection operations (`make_event`, `make_mesh_signal`,
`make_hit_pattern`) fail with the `EmptyTrajectory` error rather than
returning a result. -/
theorem empty_trajectory_error (eg : EventGenState) (pos : List (ℚ × ℚ × ℚ))
    (en : List ℚ) (h : pos.length < 2) :
    eg.makeEvent pos en = .error .emptyTrajectory ∧
    eg.makeMeshSignal pos en = .error .emptyTrajectory ∧
    eg.makeHitPattern pos en = .error .emptyTrajectory := by
  refine ⟨?_, ?_, ?_⟩
  · unfold EventGenState.makeEvent
    rw [if_pos h]
  · unfold EventGenState.makeMeshSignal
    rw [if_pos h]
  · unfold EventGenState.makeHitPattern
    rw [if_pos h]

/-- Witness for C7 at a concrete one-sample trajectory. -/
theorem empty_trajectory_error_witness :
    egW.makeEvent posShort enShort = .error .emptyTrajectory ∧
    egW.makeMeshSignal posShort enShort = .error .emptyTrajectory ∧
    egW.makeHitPattern posShort enShort = .error .emptyTrajectory :=
  empty_trajectory_error egW posShort enShort (by decide)

/-- C9: assigning an array whose length is not 3 to `Tracker.efield`,
`Tracker.bfield` or `EventGenerator.vd` raises the dimension-mismatch
`ValueError` before any mutation, and the stored vector is unchanged by the
failed assignment. -/
theorem field_setter_dimension_check (t : TrackerState) (eg : EventGenState)
    (v : List ℚ) (h : v.length ≠ 3) :
    t.setEfield v = .error .valueError ∧ t.assignEfield v = t ∧
    t.setBfield v = .error .valueError ∧ t.assignBfield v = t ∧
    eg.setVd v = .error .valueError ∧ eg.assignVd v = eg := by
  have he : t.setEfield v = .error .valueError := by
    unfold TrackerState.setEfield
    rw [if_pos h]
  have hb : t.setBfield v = .error .valueError := by
    unfold TrackerState.setBfield
    rw [if_pos h]
  have hv : eg.setVd v = .error .valueError := by
    unfold EventGenState.setVd
    rw [if_pos h]
  refine ⟨he, ?_, hb, ?_, hv, ?_⟩
  · unfold TrackerState.assignEfield
    rw [he]
  · unfold TrackerState.assignBfield
    rw [hb]
  · unfold EventGenState.assignVd
    rw [hv]

/-- Witness for C9 at a concrete 2-vector. -/
theorem field_setter_dimension_check_witness :
    tW.setEfield [1, 2] = .error .valueError ∧ tW.assignEfield [1, 2] = tW ∧
    tW.setBfield [1, 2] = .error .valueError ∧ tW.assignBfield [1, 2] = tW ∧
    egW.setVd [1, 2] = .error .valueError ∧ egW.assignVd [1, 2] = egW :=
  field_setter_dimension_check tW egW [1, 2] (by decide)

/-- C8: the energy-loss table built by `Tracker.__cinit__` has
`max_en * 1000` entries spaced by 1 keV, and `stopping_power` clamps every
out-of-range energy to the nearest table endpoint instead of failing (its
total type shows it never errors). -/
theorem stopping_power_interpolation_clamps (g : Gas) (maxEn : ℕ) (E : ℚ) :
    (trackerElossEnergies maxEn).length = maxEn * 1000 ∧
    (∀ i, i + 1 < maxEn * 1000 →
      (trackerElossEnergies maxEn).getD (i + 1) 0
        - (trackerElossEnergies maxEn).getD i 0 = 1 / 1000) ∧
    (E * 1000 < 0 → g.stoppingPower E = g.eloss.headD 0) ∧
    ((g.eloss.length : ℚ) - 1 ≤ E * 1000 →
      g.stoppingPower E = g.eloss.getLastD 0) := by
  have hget : ∀ i, i < maxEn * 1000 →
      (trackerElossEnergies maxEn).getD i 0 = (i : ℚ) / 1000 := by
    intro i hi
    have hlen : i < (trackerElossEnergies maxEn).length := by
      unfold trackerElossEnergies
      rw [List.length_map, List.length_range]
      exact hi
    rw [List.getD_eq_getElem _ _ hlen]
    unfold trackerElossEnergies
    simp [List.getElem_map, List.getElem_range]
  have hlength : (trackerElossEnergies maxEn).length = maxEn * 1000 := by
    unfold trackerElossEnergies
    rw [List.length_map, List.length_range]
  refine ⟨hlength, ?_, ?_, ?_⟩
  · intro i hi
    rw [hget (i + 1) hi, hget i (by omega)]
    push_cast
    ring
  · intro h
    have hf : ⌊E * 1000⌋ < 0 := by
      rw [Int.floor_lt]
      push_cast
      exact h
    unfold Gas.stoppingPower
    rw [if_pos hf]
  · intro h
    unfold Gas.stoppingPower
    by_cases hf : ⌊E * 1000⌋ < 0
    · have hu : E * 1000 < 0 := by
        have := Int.floor_lt.mp hf
        push_cast at this
        exact this
      have hlen : g.eloss.length = 0 := by
        have h1 : (g.eloss.length : ℚ) < 1 := by linarith
        have h2 : g.eloss.length < 1 := by exact_mod_cast h1
        omega
      have hnil : g.eloss = [] := List.length_eq_zero.mp hlen
      rw [if_pos hf, hnil]
      rfl
    · have hle : (g.eloss.length : ℤ) - 1 ≤ ⌊E * 1000⌋ := by
        rw [Int.le_floor]
        push_cast
        exact h
      rw [if_neg hf, if_pos hle]

/-- Witness for C8: table shape at `max_en = 1`, low clamp at E = −1 MeV,
high clamp at E = 5 MeV on a 3-entry table. -/
theorem stopping_power_interpolation_clamps_witness :
    (trackerElossEnergies 1).length = 1 * 1000 ∧
    (trackerElossEnergies 1).getD 1 0 - (trackerElossEnergies 1).getD 0 0 = 1 / 1000 ∧
    gasW.stoppingPower (-1) = gasW.eloss.headD 0 ∧
    gasW.stoppingPower 5 = gasW.eloss.getLastD 0 :=
  ⟨(stopping_power_interpolation_clamps gasW 1 (-1)).1,
   (stopping_power_interpolation_clamps gasW 1 (-1)).2.1 0 (by decide),
   (stopping_power_interpolation_clamps gasW 1 (-1)).2.2.1 (by norm_num),
   (stopping_power_interpolation_clamps gasW 1 5).2.2.2 (by norm_num [gasW])⟩

/-- C6: a point whose rotated, discretised indices fall outside the lookup
table makes `get_pad_number_from_coordinates` fail with `LookupMiss`; the
error is absorbed inside the EventGenerator: a sample projecting outside
the pad plane deposits nothing, and `make_event` on a trajectory of at
least two samples succeeds, never propagating the lookup error. -/
theorem pad_lookup_miss_absorbed (pp : PadPlane) (x y : ℚ)
    (eg : EventGenState) (pos : List (ℚ × ℚ × ℚ)) (en : List ℚ)
    (q : ℚ × ℚ × ℚ) (e1 e2 : ℚ) :
    (¬ pp.inRange x y →
      pp.getPadNumberFromCoordinates x y = .error .lookupMiss) ∧
    (2 ≤ pos.length → eg.makeEvent pos en = .ok (eg.makeEventCore pos en)) ∧
    (¬ eg.pads.inRange (eg.projectSample q).1.1 (eg.projectSample q).1.2 →
      eg.segDeposit q e1 e2 = []) := by
  have hmiss : ∀ (pp' : PadPlane) (a b : ℚ), ¬ pp'.inRange a b →
      pp'.getPadNumberFromCoordinates a b = .error .lookupMiss := by
    intro pp' a b h
    unfold PadPlane.getPadNumberFromCoordinates
    dsimp only
    rw [if_neg h]
  refine ⟨hmiss pp x y, ?_, ?_⟩
  · intro h
    unfold EventGenState.makeEvent
    rw [if_neg (by omega)]
  · intro h
    unfold EventGenState.segDeposit
    dsimp only
    rw [hmiss eg.pads _ _ h]

/-- Witness for C6: the out-of-table point (10, 10) on `ppW`, the
two-sample trajectory `posW`, and a sample projecting to (10, 10). -/
theorem pad_lookup_miss_absorbed_witness :
    ppW.getPadNumberFromCoordinates 10 10 = .error .lookupMiss ∧
    egW.makeEvent posW enW = .ok (egW.makeEventCore posW enW) ∧
    egW.segDeposit (10, 10, 1) 2 1 = [] :=
  ⟨(pad_lookup_miss_absorbed ppW 10 10 egW posW enW (10, 10, 1) 2 1).1
      (by norm_num [PadPlane.inRange, PadPlane.padIndices, ppW]),
   (pad_lookup_miss_absorbed ppW 10 10 egW posW enW (10, 10, 1) 2 1).2.1
      (by decide),
   (pad_lookup_miss_absorbed ppW 10 10 egW posW enW (10, 10, 1) 2 1).2.2
      (by norm_num [PadPlane.inRange, PadPlane.padIndices, ppW, egW,
        EventGenState.projectSample])⟩

/-- C3: for every trajectory accepted by the EventGenerator, the mesh
signal equals, elementwise over the `N_tb` = 512 time buckets, the sum over
all pads of the per-pad signals returned by `make_event`. -/
theorem mesh_signal_eq_sum_of_pads (eg : EventGenState)
    (pos : List (ℚ × ℚ × ℚ)) (en : List ℚ) (ev : List (ℕ × (ℕ → ℚ)))
    (mesh : ℕ → ℚ) (hev : eg.makeEvent pos en = .ok ev)
    (hm : eg.makeMeshSignal pos en = .ok mesh) (t : ℕ)
    (ht : t < numTimeBuckets) :
    mesh t = (ev.map (fun e => e.2 t)).sum := by
  unfold EventGenState.makeEvent at hev
  unfold EventGenState.makeMeshSignal at hm
  by_cases hl : pos.length < 2
  · rw [if_pos hl] at hev
    cases hev
  · rw [if_neg hl] at hev hm
    simp only [Except.ok.injEq] at hev hm
    subst hev
    subst hm
    exact meshCore_eq_sum_event eg pos en t

/-- Witness for C3 on the concrete two-sample trajectory `posW`, at time
bucket 0. -/
theorem mesh_signal_eq_sum_of_pads_witness :
    egW.meshCore posW enW 0
      = ((egW.makeEventCore posW enW).map (fun e => e.2 0)).sum :=
  mesh_signal_eq_sum_of_pads egW posW enW (egW.makeEventCore posW enW)
    (egW.meshCore posW enW) rfl rfl 0 (by decide)

/-- C4: for every trajectory accepted by the EventGenerator and every pad
id `p` of the plane, `make_hit_pattern[p]` equals the sum over all time
buckets of the `make_event` signal of pad `p`, and a pad absent from the
event map (it received no charge) has hit-pattern entry 0. -/
theorem hit_pattern_eq_pad_integral (eg : EventGenState)
    (pos : List (ℚ × ℚ × ℚ)) (en : List ℚ) (ev : List (ℕ × (ℕ → ℚ)))
    (hitp : ℕ → ℚ) (p : ℕ) (hev : eg.makeEvent pos en = .ok ev)
    (hh : eg.makeHitPattern pos en = .ok hitp) (hp : p < numPads) :
    hitp p = ((List.range numTimeBuckets).map (fun t => evLookup ev p t)).sum ∧
    (ev.find? (fun e => e.1 == p) = none → hitp p = 0) := by
  unfold EventGenState.makeEvent at hev
  unfold EventGenState.makeHitPattern at hh
  by_cases hl : pos.length < 2
  · rw [if_pos hl] at hev
    cases hev
  · rw [if_neg hl] at hev hh
    simp only [Except.ok.injEq] at hev hh
    subst hev
    subst hh
    refine ⟨hitPatternCore_eq_sum_event eg pos en p hp, ?_⟩
    intro hnone
    rw [hitPatternCore_eq_sum_event eg pos en p hp]
    have hz : ∀ t ∈ List.range numTimeBuckets,
        evLookup (eg.makeEventCore pos en) p t = (fun _ : ℕ => (0 : ℚ)) t := by
      intro t _
      unfold evLookup
      rw [hnone]
    rw [List.map_congr_left hz, sum_map_zero]

/-- Witness for C4 on the concrete trajectory `posW` at pad 3 (the hit
pad). -/
theorem hit_pattern_eq_pad_integral_witness :
    egW.hitPatternCore posW enW 3
      = ((List.range numTimeBuckets).map
          (fun t => evLookup (egW.makeEventCore posW enW) 3 t)).sum :=
  (hit_pattern_eq_pad_integral egW posW enW (egW.makeEventCore posW enW)
    (egW.hitPatternCore posW enW) 3 rfl rfl (by decide)).1

/-- C5: the hypercube width vector is multiplied by `redFactor` after every
iteration, so after `k` iterations none of which fully failed, the width in
every dimension equals `σ₀ · redFactor^k` exactly (the sampling half-width
being that width divided by 2 throughout). -/
theorem sigma_contraction (m : MinimizerState)
    (obj : ParamVec → Option Chi2Triple) (c0 s0 : ParamVec) (k : ℕ)
    (d : Fin 7)
    (h : ∀ j, j < k → iterAllFail m obj (mcIter m obj c0 s0 j) = false) :
    (mcIter m obj c0 s0 k).sg d = s0 d * m.redFactor ^ k := by
  induction k with
  | zero => simp [mcIter, initLoopSt]
  | succ k ih =>
      have hk : iterAllFail m obj (mcIter m obj c0 s0 k) = false :=
        h k (Nat.lt_succ_self k)
      have hstep : mcIter m obj c0 s0 (k + 1)
          = mcStep m obj (mcIter m obj c0 s0 k) := by
        unfold mcIter
        exact Function.iterate_succ_apply' _ _ _
      rw [hstep, mcStep_sg_of_not_fail m obj _ hk]
      show (mcIter m obj c0 s0 k).sg d * m.redFactor
          = s0 d * m.redFactor ^ (k + 1)
      rw [ih (fun j hj => h j (Nat.lt_succ_of_lt hj))]
      rw [pow_succ, mul_assoc]

/-- Witness for C5: one successful iteration of the concrete minimizer
contracts the width of dimension 0 by `redFactor`. -/
theorem sigma_contraction_witness :
    (mcIter mW objW ctrW sgW 1).sg 0 = sgW 0 * mW.redFactor ^ 1 :=
  sigma_contraction mW objW ctrW sgW 1 0 (by decide)

/-- C1 counterexample: a call of the Python method `Minimizer.minimize`
with the default `details=False` completes without error yet returns only
the 3-part `(ctr, lastPosChi, lastEnChi)` value, not the four parts the
claim promises for every completing call. -/
theorem minimize_default_returns_three_parts :
    mzIsOk (mW.minimizeW objW ctrW sgW false) = true ∧
    okFourParts (mW.minimizeW objW ctrW sgW false) = false := by
  constructor
  · rfl
  · rfl

/-- C1 (amended): every call of `Minimizer.minimize` with `details=True`
that completes without error returns the four parts — the center, the
`minChis` matrix with one row per iteration (3 columns, by the type
`Chi2Triple`), the `allParams` matrix with exactly `numIters * numPts` rows
(7 columns, by the type `ParamVec`), and the `goodParamIdx` vector. -/
theorem minimize_details_four_parts (m : MinimizerState)
    (obj : ParamVec → Option Chi2Triple) (c0 s0 : ParamVec)
    (h : mzIsOk (m.minimizeW obj c0 s0 true) = true) :
    okFourParts (m.minimizeW obj c0 s0 true) = true ∧
    okChiRows (m.minimizeW obj c0 s0 true) = m.numIters ∧
    okParamRows (m.minimizeW obj c0 s0 true) = m.numIters * m.numPts := by
  unfold MinimizerState.minimizeW MinimizerState.minimize at h ⊢
  dsimp only at h ⊢
  cases hst : (mcIter m obj c0 s0 m.numIters).stalled with
  | true =>
      rw [hst] at h
      simp [Except.map, mzIsOk] at h
  | false =>
      simp [Except.map, okFourParts, okChiRows, okParamRows,
        MinimizeReturn.fourParts, MinimizeReturn.chiRows,
        MinimizeReturn.paramRows, mcIter_minChis_length,
        mcIter_allParams_length, Nat.mul_comm]

/-- Witness for C1 (amended) on the concrete minimizer `mW`. -/
theorem minimize_details_four_parts_witness :
    okFourParts (mW.minimizeW objW ctrW sgW true) = true ∧
    okChiRows (mW.minimizeW objW ctrW sgW true) = mW.numIters ∧
    okParamRows (mW.minimizeW objW ctrW sgW true) = mW.numIters * mW.numPts :=
  minimize_details_four_parts mW objW ctrW sgW (by rfl)

/-- C2: two runs of `Minimizer.minimize` on minimizers that agree on every
configuration field and are seeded with the same seed, given identical
inputs, return identical results (in particular identical `allParams` and
`ctr`); the RNG is part of the Minimizer's state and is set through its
seed.  The model is single-threaded, matching the fixed-thread-count
hypothesis of the claim. -/
theorem minimize_deterministic_given_seed (m m' : MinimizerState)
    (obj : ParamVec → Option Chi2Triple) (c0 s0 : ParamVec) (details : Bool)
    (s : ℕ) (h1 : m.numIters = m'.numIters) (h2 : m.numPts = m'.numPts)
    (h3 : m.redFactor = m'.redFactor)
    (h4 : m.posChi2Enabled = m'.posChi2Enabled)
    (h5 : m.enChi2Enabled = m'.enChi2Enabled)
    (h6 : m.posChi2Norm = m'.posChi2Norm)
    (h7 : m.enChi2NormFraction = m'.enChi2NormFraction) :
    (m.setSeed s).minimizeW obj c0 s0 details
      = (m'.setSeed s).minimizeW obj c0 s0 details := by
  have hst : m.setSeed s = m'.setSeed s := by
    cases m
    cases m'
    simp_all [MinimizerState.setSeed]
  rw [hst]

/-- Witness for C2: the concrete minimizers `mW` and `mW2` differ only in
their RNG state; seeded identically, their minimizations coincide. -/
theorem minimize_deterministic_given_seed_witness :
    (mW.setSeed 42).minimizeW objW ctrW sgW true
      = (mW2.setSeed 42).minimizeW objW ctrW sgW true :=
  minimize_deterministic_given_seed mW mW2 objW ctrW sgW true 42
    rfl rfl rfl rfl rfl rfl rfl

/-- C10: a call of `Minimizer.minimize` with `details=False` (the Python
default) that completes without error returns only the 3-part value: the
center together with columns 0 (position chi²) and 1 (hit-pattern chi²) of
the last row of `minChis`; the `allParams` matrix, the full `minChis`
matrix, the `goodParamIdx` vector and the vertex chi² column do not appear
in the return value (its type `brief` carries no further component). -/
theorem minimize_default_brief_result (m : MinimizerState)
    (obj : ParamVec → Option Chi2Triple) (c0 s0 : ParamVec)
    (h : mzIsOk (m.minimizeW obj c0 s0 false) = true) :
    okFourParts (m.minimizeW obj c0 s0 false) = false ∧
    m.minimizeW obj c0 s0 false = (m.minimize obj c0 s0).map (fun res =>
      .brief res.ctr ((res.minChis.getLastD none).map Chi2Triple.pos)
        ((res.minChis.getLastD none).map Chi2Triple.en)) := by
  constructor
  · unfold MinimizerState.minimizeW at h ⊢
    cases hmin : m.minimize obj c0 s0 with
    | error e => rw [hmin] at h; simp [Except.map, mzIsOk] at h
    | ok res => rfl
  · unfold MinimizerState.minimizeW
    cases hmin : m.minimize obj c0 s0 with
    | error e => rfl
    | ok res => rfl

/-- Witness for C10 on the concrete minimizer `mW`. -/
theorem minimize_default_brief_result_witness :
    okFourParts (mW.minimizeW objW ctrW sgW false) = false ∧
    mW.minimizeW objW ctrW sgW false = (mW.minimize objW ctrW sgW).map
      (fun res => .brief res.ctr
        ((res.minChis.getLastD none).map Chi2Triple.pos)
        ((res.minChis.getLastD none).map Chi2Triple.en)) :=
  minimize_default_brief_result mW objW ctrW sgW (by rfl)

end PyTPC
